import Mathlib

/-!
Shallow embedding of the client-side conversation/session state manager in
`src/App.js` (a single-page chat client), together with theorems about its
operations: `sendMessage`, `clearChat`, `handleSummarize`, the UI gating of
the send triggers, and the history-grouping pass rendered in the history tab.

Conventions of the embedding:

* Each React `useState` field becomes a field of an explicit `AppState`
  record; an async handler becomes a function from the pre-call state (plus
  the outcome of the one external-service call it performs) to the post-call
  state, paired with an `Option` of the outbound request it issues
  (`none` = no request was issued).
* JS strings are Lean `String`s; `new Date().toISOString()` values are passed
  in as explicit timestamp arguments.
* An absent session id is the empty string, exactly as in the source
  (`useState('')`, tested with `if (!sessionId)` and `sessionId || undefined`).
* The history list builds a plain JS object keyed by `sessionId` via
  `forEach`/push; `Object.entries` of such an object enumerates
  array-index-like keys first, in ascending numeric order, and then the
  remaining string keys in insertion order.  `jsEntries` models exactly this
  enumeration order, and `isArrayIndex` the canonical-numeric-string test.
-/

inductive Role where
  | user
  | assistant
  deriving DecidableEq, Repr

inductive Tab where
  | chat
  | summarize
  | history
  deriving DecidableEq, Repr

/-- A message in the active chat log: `{ role, content, timestamp }`. -/
structure Message where
  role : Role
  content : String
  timestamp : String
  deriving DecidableEq, Repr

/-- The `useState` fields of the `App` component that the verified
operations read or write. -/
structure AppState where
  messages : List Message
  inputMessage : String
  sessionId : String
  loading : Bool
  summarizeText : String
  summary : String
  activeTab : Tab
  deriving DecidableEq, Repr

/-- The fixed synthetic assistant reply appended when the send request
fails (`catch` branch of `sendMessage`). -/
def errorReplyText : String := "Sorry, I encountered an error. Please try again."

/-- The fixed error string stored in the summary slot when the summarize
request fails (`catch` branch of `handleSummarize`). -/
def summarizeErrorText : String := "Error: Could not generate summary. Please try again."

/-- JS `s.trim()`: strip whitespace from both ends.  (Defined over the
character list so that it is kernel-reducible on concrete inputs.) -/
def jsTrim (s : String) : String :=
  String.mk (((s.data.dropWhile Char.isWhitespace).reverse.dropWhile Char.isWhitespace).reverse)

/-- The body of the POST to `/send`: `{ message, sessionId: sessionId || undefined }`. -/
structure SendRequest where
  message : String
  sessionId : Option String
  deriving DecidableEq, Repr

/-- Outcome of the awaited `/send` call: a 2xx response carrying
`{ response, sessionId }`, or any transport/service failure. -/
inductive SendOutcome where
  | success (response : String) (sessionId : String)
  | failure
  deriving DecidableEq, Repr

/-- `sendMessage` from `src/App.js` lines 44-85, run to completion with the
given service outcome.  Returns the post-call state and the request issued
(`none` when the call returned early on blank input and issued none). -/
def sendMessage (s : AppState) (tsUser tsAssistant : String) (o : SendOutcome) :
    AppState × Option SendRequest :=
  if (jsTrim s.inputMessage) = "" then (s, none)
  else
    let userMessage : Message :=
      { role := Role.user, content := s.inputMessage, timestamp := tsUser }
    let req : SendRequest :=
      { message := s.inputMessage
        sessionId := if s.sessionId = "" then none else some s.sessionId }
    let s1 : AppState :=
      { s with messages := s.messages ++ [userMessage], inputMessage := "", loading := true }
    match o with
    | SendOutcome.success resp sid =>
      let assistantMessage : Message :=
        { role := Role.assistant, content := resp, timestamp := tsAssistant }
      let s2 := { s1 with messages := s1.messages ++ [assistantMessage] }
      -- `if (!sessionId) setSessionId(...)` tests the value captured at call time
      let s3 := if s.sessionId = "" then { s2 with sessionId := sid } else s2
      ({ s3 with loading := false }, some req)
    | SendOutcome.failure =>
      let errorMessage : Message :=
        { role := Role.assistant, content := errorReplyText, timestamp := tsAssistant }
      ({ s1 with messages := s1.messages ++ [errorMessage], loading := false }, some req)

/-- `disabled={loading || !inputMessage.trim()}` on the send button. -/
def sendButtonDisabled (s : AppState) : Bool :=
  s.loading || (jsTrim s.inputMessage) == ""

/-- `disabled={loading}` on the chat textarea. -/
def chatTextareaDisabled (s : AppState) : Bool :=
  s.loading

/-- A click on the send button: a disabled button fires no handler. -/
def clickSend (s : AppState) (tsUser tsAssistant : String) (o : SendOutcome) :
    AppState × Option SendRequest :=
  if sendButtonDisabled s then (s, none) else sendMessage s tsUser tsAssistant o

/-- An Enter keypress (without shift) on the chat textarea: a disabled
textarea receives no key events, and `handleKeyPress` dispatches to
`sendMessage` only in the chat tab. -/
def enterKeyChat (s : AppState) (tsUser tsAssistant : String) (o : SendOutcome) :
    AppState × Option SendRequest :=
  if chatTextareaDisabled s then (s, none)
  else if s.activeTab = Tab.chat then sendMessage s tsUser tsAssistant o
  else (s, none)

/-- `clearChat` from `src/App.js` lines 104-114: when a session is
established, a best-effort DELETE is issued and its outcome (`remoteOk`)
is swallowed by the `catch`; the local reset always runs.  Returns the
post-call state and the session id the DELETE targeted, if any. -/
def clearChat (s : AppState) (_remoteOk : Bool) : AppState × Option String :=
  if s.sessionId = "" then
    ({ s with messages := [], sessionId := "" }, none)
  else
    -- the try/catch logs and discards `remoteOk`; both branches fall through
    ({ s with messages := [], sessionId := "" }, some s.sessionId)

/-- Outcome of the awaited `/summarize` call. -/
inductive SummarizeOutcome where
  | success (summary : String)
  | failure
  deriving DecidableEq, Repr

/-- `handleSummarize` from `src/App.js` lines 87-102, run to completion.
Returns the post-call state and the text sent to the service, if any. -/
def handleSummarize (s : AppState) (o : SummarizeOutcome) : AppState × Option String :=
  if (jsTrim s.summarizeText) = "" then (s, none)
  else
    match o with
    | SummarizeOutcome.success result =>
      ({ s with summary := result, loading := false }, some s.summarizeText)
    | SummarizeOutcome.failure =>
      ({ s with summary := summarizeErrorText, loading := false }, some s.summarizeText)

/-- A record of the flat `/recent` feed: `{ sessionId, role, content, timestamp }`. -/
structure ChatRecord where
  sessionId : String
  role : Role
  content : String
  timestamp : String
  deriving DecidableEq, Repr

/-- `msgs.find(m => m.role === 'user')?.content || 'Chat session'`: the
first user message's content, with the fallback kicking in both when no
user message exists and when the found content is the falsy `''`. -/
def previewOf (msgs : List ChatRecord) : String :=
  match msgs.find? (fun m => m.role == Role.user) with
  | some m => if m.content = "" then "Chat session" else m.content
  | none => "Chat session"

/-- JS `s.substring(0, n)`. -/
def jsSubstringTo (s : String) (n : Nat) : String :=
  String.mk (s.data.take n)

/-- The rendered preview text:
`preview.substring(0, 100)` followed by `preview.length > 100 ? '...' : ''`. -/
def displayedPreview (p : String) : String :=
  jsSubstringTo p 100 ++ (if 100 < p.length then "..." else "")

/-- One insertion step of the `recentChats.forEach` loop: push onto the
existing bucket for this `sessionId`, or create a fresh singleton bucket
(a fresh object key, appended in insertion order). -/
def insertRecord (sessions : List (String × List ChatRecord)) (m : ChatRecord) :
    List (String × List ChatRecord) :=
  if sessions.any (fun p => p.1 == m.sessionId) then
    sessions.map (fun p => if p.1 == m.sessionId then (p.1, p.2 ++ [m]) else p)
  else
    sessions ++ [(m.sessionId, [m])]

/-- The `sessions` object after the whole `forEach` loop, as an
insertion-ordered association list. -/
def buildSessions (recentChats : List ChatRecord) : List (String × List ChatRecord) :=
  recentChats.foldl insertRecord []

/-- Value of a digit string read in base 10. -/
def digitsToNat (l : List Char) : Nat :=
  l.foldl (fun n c => n * 10 + (c.toNat - 48)) 0

/-- Numeric value of a key, for the array-index ordering of object keys. -/
def jsKeyNum (s : String) : Nat :=
  digitsToNat s.data

/-- Whether a string is a canonical array index (ECMAScript: the canonical
decimal form of an integer `0 ≤ i < 2^32 - 1`); such object keys are
enumerated first, in ascending numeric order. -/
def isArrayIndex (s : String) : Bool :=
  match s.data with
  | [] => false
  | c :: cs =>
    (c :: cs).all Char.isDigit && (cs.isEmpty || c != '0')
      && decide (digitsToNat (c :: cs) < 4294967295)

/-- Comparison used to order array-index-like keys. -/
def entryLE (p q : String × List ChatRecord) : Prop :=
  jsKeyNum p.1 ≤ jsKeyNum q.1

instance : DecidableRel entryLE :=
  fun p q => inferInstanceAs (Decidable (jsKeyNum p.1 ≤ jsKeyNum q.1))

instance : IsTotal (String × List ChatRecord) entryLE :=
  ⟨fun a b => Nat.le_total (jsKeyNum a.1) (jsKeyNum b.1)⟩

instance : IsTrans (String × List ChatRecord) entryLE :=
  ⟨fun _ _ _ h1 h2 => Nat.le_trans h1 h2⟩

/-- `Object.entries(sessions)`: array-index-like keys first in ascending
numeric order, then the other keys in insertion order. -/
def jsEntries (sessions : List (String × List ChatRecord)) :
    List (String × List ChatRecord) :=
  List.insertionSort entryLE (sessions.filter (fun p => isArrayIndex p.1))
    ++ sessions.filter (fun p => !isArrayIndex p.1)

/-- One rendered history item, as computed inside the `.map` over
`Object.entries(sessions)`. -/
structure HistoryGroup where
  sessionId : String
  msgs : List ChatRecord
  preview : String
  messageCount : Nat
  lastTimestamp : Option String
  deriving DecidableEq, Repr

/-- The per-entry computation of the history list body. -/
def mkGroup (p : String × List ChatRecord) : HistoryGroup :=
  { sessionId := p.1
    msgs := p.2
    preview := previewOf p.2
    messageCount := p.2.length
    lastTimestamp := (p.2.getLast?).map (fun m => m.timestamp) }

/-- The whole history-grouping pass of `src/App.js` lines 291-305. -/
def groupBySession (recentChats : List ChatRecord) : List HistoryGroup :=
  (jsEntries (buildSessions recentChats)).map mkGroup

/-- Flatten a grouped history back to a flat message sequence, group by
group, each group's messages in order. -/
def flattenGroups (gs : List HistoryGroup) : List ChatRecord :=
  (gs.map (fun g => g.msgs)).flatten

/-- One step of first-appearance key collection. -/
def fdStep (ks : List String) (m : ChatRecord) : List String :=
  if m.sessionId ∈ ks then ks else ks ++ [m.sessionId]

/-- The session ids of a flat feed, in first-appearance order — the key
creation order of the `sessions` object. -/
def firstSeenKeys (recentChats : List ChatRecord) : List String :=
  recentChats.foldl fdStep []

/-! ### Concrete states used by the witnesses -/

/-- A concrete state: unestablished session, non-blank draft input. -/
def sampleState : AppState :=
  { messages := [{ role := Role.assistant, content := "hello", timestamp := "t0" }]
    inputMessage := "hi there"
    sessionId := ""
    loading := false
    summarizeText := "long text to summarize"
    summary := "old summary"
    activeTab := Tab.chat }

/-- A concrete state with an established session id. -/
def establishedState : AppState :=
  { sampleState with sessionId := "abc-123" }

/-- A concrete state with a send in flight and a non-blank draft. -/
def pendingState : AppState :=
  { sampleState with loading := true, inputMessage := "queued text" }

/-- A concrete state whose draft input is whitespace only. -/
def blankInputState : AppState :=
  { sampleState with inputMessage := "   " }

/-! ### Small helper lemmas about the embedding of JS strings -/

lemma string_length_data (p : String) : p.length = p.data.length := rfl

lemma string_mk_data (p : String) : String.mk p.data = p := String.ext rfl

/-! ### Claims about `sendMessage`, `clearChat`, `handleSummarize` -/

/-- C1: for every draft that is non-empty after trimming, a completed
`sendMessage` appends exactly the optimistic user message followed
immediately by an assistant message — the service reply on success, the
synthetic error notice on failure — so the count grows by exactly two, all
previously present messages are unchanged (the old log is a prefix), and
the two new messages are adjacent in that order. -/
theorem sendMessage_appends_user_assistant (s : AppState) (tsU tsA : String)
    (o : SendOutcome) (h : (jsTrim s.inputMessage) ≠ "") :
    (sendMessage s tsU tsA o).1.messages =
      s.messages ++
        [{ role := Role.user, content := s.inputMessage, timestamp := tsU },
         { role := Role.assistant,
           content := match o with
             | SendOutcome.success resp _ => resp
             | SendOutcome.failure => errorReplyText,
           timestamp := tsA }] ∧
    (sendMessage s tsU tsA o).1.messages.length = s.messages.length + 2 := by
  cases o with
  | success resp sid =>
    by_cases hs : s.sessionId = "" <;>
      simp [sendMessage, h, hs, List.append_assoc]
  | failure =>
    simp [sendMessage, h, List.append_assoc]

/-- Witness for C1 at a concrete state and a successful outcome. -/
theorem sendMessage_appends_user_assistant_witness :
    (jsTrim sampleState.inputMessage) ≠ "" ∧
    ((sendMessage sampleState "t1" "t2" (SendOutcome.success "yo" "sid-9")).1.messages =
        sampleState.messages ++
          [{ role := Role.user, content := sampleState.inputMessage, timestamp := "t1" },
           { role := Role.assistant, content := "yo", timestamp := "t2" }] ∧
      (sendMessage sampleState "t1" "t2" (SendOutcome.success "yo" "sid-9")).1.messages.length =
        sampleState.messages.length + 2) :=
  ⟨by decide, sendMessage_appends_user_assistant sampleState "t1" "t2"
    (SendOutcome.success "yo" "sid-9") (by decide)⟩

/-- C7: for a draft that is empty or whitespace only, `sendMessage` is a
no-op: the whole state (message count, session id, pending flag included)
is unchanged and no request is issued. -/
theorem sendMessage_blank_noop (s : AppState) (tsU tsA : String) (o : SendOutcome)
    (h : (jsTrim s.inputMessage) = "") :
    sendMessage s tsU tsA o = (s, none) := by
  simp [sendMessage, h]

/-- Witness for C7 at a whitespace-only draft. -/
theorem sendMessage_blank_noop_witness :
    (jsTrim blankInputState.inputMessage) = "" ∧
    sendMessage blankInputState "t1" "t2" SendOutcome.failure = (blankInputState, none) :=
  ⟨by decide, sendMessage_blank_noop blankInputState "t1" "t2" SendOutcome.failure (by decide)⟩

/-- C2: while a send is pending (`loading` set), both send triggers — the
send button and the Enter key on the chat textarea — are disabled, so a
second `sendMessage` call is a no-op whatever outcome it would have had:
it appends no message, issues no request, and leaves the state unchanged;
hence two sends are never pending simultaneously. -/
theorem pending_send_rejected (s : AppState) (tsU tsA : String) (o : SendOutcome)
    (h : s.loading = true) :
    clickSend s tsU tsA o = (s, none) ∧ enterKeyChat s tsU tsA o = (s, none) := by
  refine ⟨?_, ?_⟩ <;>
    simp [clickSend, enterKeyChat, sendButtonDisabled, chatTextareaDisabled, h]

/-- Witness for C2 at a pending state with a non-empty draft. -/
theorem pending_send_rejected_witness :
    pendingState.loading = true ∧ (jsTrim pendingState.inputMessage) ≠ "" ∧
    (clickSend pendingState "t1" "t2" (SendOutcome.success "r" "sid") = (pendingState, none) ∧
     enterKeyChat pendingState "t1" "t2" (SendOutcome.success "r" "sid") = (pendingState, none)) :=
  ⟨by decide, by decide,
    pending_send_rejected pendingState "t1" "t2" (SendOutcome.success "r" "sid") (by decide)⟩

/-- C4: after every completed `clearChat`, the active log is empty and the
session id is reset to absent — independently of the remote delete outcome,
which is swallowed; the DELETE is issued exactly when the session was
established, and no other field of the state is touched. -/
theorem clearChat_resets_locally (s : AppState) (remoteOk : Bool) :
    (clearChat s remoteOk).1.messages = [] ∧
    (clearChat s remoteOk).1.sessionId = "" ∧
    ((clearChat s remoteOk).2 = none ↔ s.sessionId = "") ∧
    (clearChat s remoteOk).1.loading = s.loading ∧
    (clearChat s remoteOk).1.inputMessage = s.inputMessage ∧
    (clearChat s remoteOk).1.summary = s.summary := by
  by_cases hs : s.sessionId = "" <;> simp [clearChat, hs]

/-- C5: once the session id has been set (non-absent), a completed
`sendMessage` never changes it, even when the server's response carries a
different id — set-once semantics. -/
theorem sessionId_set_once (s : AppState) (tsU tsA : String) (o : SendOutcome)
    (h : s.sessionId ≠ "") :
    (sendMessage s tsU tsA o).1.sessionId = s.sessionId := by
  by_cases hin : (jsTrim s.inputMessage) = ""
  · simp [sendMessage, hin]
  · cases o <;> simp [sendMessage, hin, h]

/-- Witness for C5: the server returns a different id and it is ignored. -/
theorem sessionId_set_once_witness :
    establishedState.sessionId ≠ "" ∧
    (sendMessage establishedState "t1" "t2"
        (SendOutcome.success "r" "other-sid")).1.sessionId = establishedState.sessionId :=
  ⟨by decide, sessionId_set_once establishedState "t1" "t2"
    (SendOutcome.success "r" "other-sid") (by decide)⟩

/-- C8: for non-blank input a completed `handleSummarize` stores exactly
one result in the summary slot — the returned summary on success, the
fixed error string on failure — replacing any previous value (the stored
result does not depend on the old summary), clears the pending flag, and
sends the raw text. -/
theorem handleSummarize_replaces_summary (s : AppState) (o : SummarizeOutcome)
    (h : (jsTrim s.summarizeText) ≠ "") :
    (handleSummarize s o).1.summary =
      (match o with
        | SummarizeOutcome.success r => r
        | SummarizeOutcome.failure => summarizeErrorText) ∧
    (handleSummarize s o).1.loading = false ∧
    (handleSummarize s o).2 = some s.summarizeText := by
  cases o <;> simp [handleSummarize, h]

/-- Witness for C8: a previous summary is replaced, not accumulated. -/
theorem handleSummarize_replaces_summary_witness :
    (jsTrim sampleState.summarizeText) ≠ "" ∧
    ((handleSummarize sampleState (SummarizeOutcome.success "fresh")).1.summary = "fresh" ∧
     (handleSummarize sampleState (SummarizeOutcome.success "fresh")).1.loading = false ∧
     (handleSummarize sampleState (SummarizeOutcome.success "fresh")).2 =
       some sampleState.summarizeText) :=
  ⟨by decide, handleSummarize_replaces_summary sampleState (SummarizeOutcome.success "fresh")
    (by decide)⟩

/-- C10: a group whose first user-role message has empty content gets the
fallback preview "Chat session": the fallback is triggered by a falsy
content value, not only by the absence of a user-role message. -/
theorem empty_user_content_gets_fallback (msgs : List ChatRecord) (m : ChatRecord)
    (h : msgs.find? (fun r => r.role == Role.user) = some m)
    (hc : m.content = "") :
    previewOf msgs = "Chat session" := by
  simp [previewOf, h, hc]

/-- A concrete group whose first user message has empty content. -/
def emptyContentGroup : List ChatRecord :=
  [{ sessionId := "S", role := Role.user, content := "", timestamp := "t1" },
   { sessionId := "S", role := Role.assistant, content := "reply", timestamp := "t2" }]

/-- Witness for C10 at that concrete group. -/
theorem empty_user_content_gets_fallback_witness :
    emptyContentGroup.find? (fun r => r.role == Role.user) =
      some { sessionId := "S", role := Role.user, content := "", timestamp := "t1" } ∧
    previewOf emptyContentGroup = "Chat session" :=
  ⟨by decide, empty_user_content_gets_fallback emptyContentGroup
    { sessionId := "S", role := Role.user, content := "", timestamp := "t1" }
    (by decide) (by decide)⟩

/-! ### Claim about the displayed preview (truncation at 100 characters) -/

set_option maxRecDepth 8000 in
/-- C9: the displayed preview is the first 100 characters followed by the
ellipsis marker exactly when the content exceeds 100 characters, and the
full content with no marker otherwise; the truncated slice has length
`min 100 (length)`, and the 150- and 50-character examples behave as the
claim states. -/
theorem preview_truncated_at_100 (p : String) :
    displayedPreview p =
      (if p.length ≤ 100 then p else jsSubstringTo p 100 ++ "...") ∧
    (jsSubstringTo p 100).length = min 100 p.length ∧
    displayedPreview (String.mk (List.replicate 150 'a')) =
      String.mk (List.replicate 100 'a') ++ "..." ∧
    displayedPreview (String.mk (List.replicate 50 'a')) =
      String.mk (List.replicate 50 'a') := by
  refine ⟨?_, ?_, by decide, by decide⟩
  · by_cases hp : p.length ≤ 100
    · have hnot : ¬ (100 < p.length) := not_lt.mpr hp
      have htake : p.data.take 100 = p.data :=
        List.take_of_length_le (by rw [← string_length_data]; exact hp)
      rw [if_pos hp, displayedPreview, if_neg hnot, jsSubstringTo, htake,
        string_mk_data, String.append_empty]
    · rw [if_neg hp, displayedPreview, if_pos (not_le.mp hp)]
  · rw [jsSubstringTo, string_length_data, string_length_data]
    exact List.length_take 100 p.data

/-! ### The `sessions` object: key order and bucket contents -/

lemma firstSeenKeys_append (xs : List ChatRecord) (m : ChatRecord) :
    firstSeenKeys (xs ++ [m]) = fdStep (firstSeenKeys xs) m := by
  simp [firstSeenKeys, List.foldl_append]

lemma mem_foldl_fdStep (xs : List ChatRecord) :
    ∀ (acc : List String) (k : String),
      k ∈ xs.foldl fdStep acc ↔ k ∈ acc ∨ ∃ m ∈ xs, m.sessionId = k := by
  induction xs with
  | nil => intro acc k; simp
  | cons m xs ih =>
    intro acc k
    rw [List.foldl_cons, ih]
    unfold fdStep
    by_cases hm : m.sessionId ∈ acc
    · rw [if_pos hm]
      constructor
      · rintro (h | ⟨m', hm', rfl⟩)
        · exact Or.inl h
        · exact Or.inr ⟨m', List.mem_cons_of_mem _ hm', rfl⟩
      · rintro (h | ⟨m', hm', rfl⟩)
        · exact Or.inl h
        · rcases List.mem_cons.mp hm' with rfl | h'
          · exact Or.inl hm
          · exact Or.inr ⟨m', h', rfl⟩
    · rw [if_neg hm]
      constructor
      · rintro (h | ⟨m', hm', rfl⟩)
        · rcases List.mem_append.mp h with h' | h'
          · exact Or.inl h'
          · have hk : k = m.sessionId := by simpa using h'
            exact Or.inr ⟨m, List.mem_cons_self _ _, hk.symm⟩
        · exact Or.inr ⟨m', List.mem_cons_of_mem _ hm', rfl⟩
      · rintro (h | ⟨m', hm', rfl⟩)
        · exact Or.inl (List.mem_append.mpr (Or.inl h))
        · rcases List.mem_cons.mp hm' with rfl | h'
          · exact Or.inl (List.mem_append.mpr (Or.inr (by simp)))
          · exact Or.inr ⟨m', h', rfl⟩

lemma mem_firstSeenKeys {xs : List ChatRecord} {k : String} :
    k ∈ firstSeenKeys xs ↔ ∃ m ∈ xs, m.sessionId = k := by
  rw [firstSeenKeys, mem_foldl_fdStep]; simp

lemma nodup_foldl_fdStep (xs : List ChatRecord) :
    ∀ acc : List String, acc.Nodup → (xs.foldl fdStep acc).Nodup := by
  induction xs with
  | nil => intro acc h; simpa using h
  | cons m xs ih =>
    intro acc h
    rw [List.foldl_cons]
    apply ih
    unfold fdStep
    by_cases hm : m.sessionId ∈ acc
    · rw [if_pos hm]; exact h
    · rw [if_neg hm]
      simp [List.nodup_append, h, hm]

lemma nodup_firstSeenKeys (xs : List ChatRecord) : (firstSeenKeys xs).Nodup :=
  nodup_foldl_fdStep xs [] List.nodup_nil

/-- If a key was never seen, no record carries it. -/
lemma filter_eq_nil_of_not_seen {xs : List ChatRecord} {k : String}
    (h : k ∉ firstSeenKeys xs) :
    xs.filter (fun m => m.sessionId == k) = [] := by
  refine List.filter_eq_nil_iff.mpr (fun m hm hk => h ?_)
  exact mem_firstSeenKeys.mpr ⟨m, hm, by simpa using hk⟩

/-- The `sessions` object after the `forEach` loop is exactly: one bucket
per first-seen key, in first-seen order, each bucket holding that key's
records in input order. -/
lemma buildSessions_eq (xs : List ChatRecord) :
    buildSessions xs =
      (firstSeenKeys xs).map (fun k => (k, xs.filter (fun m => m.sessionId == k))) := by
  induction xs using List.reverseRecOn with
  | nil => rfl
  | append_singleton xs m ih =>
    have hstep : buildSessions (xs ++ [m]) = insertRecord (buildSessions xs) m := by
      simp [buildSessions, List.foldl_append]
    rw [hstep, ih, firstSeenKeys_append]
    unfold insertRecord fdStep
    by_cases hm : m.sessionId ∈ firstSeenKeys xs
    · have hany : ((firstSeenKeys xs).map
          (fun k => (k, xs.filter (fun r => r.sessionId == k)))).any
            (fun p => p.1 == m.sessionId) = true := by
        refine List.any_eq_true.mpr ?_
        exact ⟨(m.sessionId, xs.filter (fun r => r.sessionId == m.sessionId)),
          List.mem_map_of_mem _ hm, by simp⟩
      rw [if_pos hany, if_pos hm, List.map_map]
      apply List.map_congr_left
      intro k hk
      by_cases hkm : k = m.sessionId
      · subst hkm
        simp [List.filter_append]
      · have hbeq : (k == m.sessionId) = false := by simpa using hkm
        simp [Function.comp, hbeq, List.filter_append, Ne.symm hkm]
    · have hany : ((firstSeenKeys xs).map
          (fun k => (k, xs.filter (fun r => r.sessionId == k)))).any
            (fun p => p.1 == m.sessionId) = false := by
        refine List.any_eq_false.mpr ?_
        intro p hp
        rcases List.mem_map.mp hp with ⟨k, hk, rfl⟩
        exact fun he => hm (eq_of_beq he ▸ hk)
      rw [if_neg (by simp [hany]), if_neg hm, List.map_append]
      congr 1
      · apply List.map_congr_left
        intro k hk
        have hkm : k ≠ m.sessionId := fun he => hm (he ▸ hk)
        simp [List.filter_append, Ne.symm hkm]
      · simp [List.filter_append, filter_eq_nil_of_not_seen hm]

lemma buildSessions_keys (xs : List ChatRecord) :
    (buildSessions xs).map Prod.fst = firstSeenKeys xs := by
  rw [buildSessions_eq, List.map_map]
  exact List.map_id _

lemma buildSessions_mem_snd {xs : List ChatRecord} {p : String × List ChatRecord}
    (hp : p ∈ buildSessions xs) :
    p.2 = xs.filter (fun m => m.sessionId == p.1) := by
  rw [buildSessions_eq] at hp
  rcases List.mem_map.mp hp with ⟨k, _, rfl⟩
  rfl

/-! ### `Object.entries` enumeration order -/

lemma jsEntries_perm (l : List (String × List ChatRecord)) : List.Perm (jsEntries l) l :=
  ((List.perm_insertionSort entryLE _).append_right _).trans (List.filter_append_perm _ l)

lemma mem_jsEntries {l : List (String × List ChatRecord)} {p : String × List ChatRecord} :
    p ∈ jsEntries l ↔ p ∈ l :=
  (jsEntries_perm l).mem_iff

lemma jsEntries_keys_nodup (xs : List ChatRecord) :
    ((jsEntries (buildSessions xs)).map Prod.fst).Nodup := by
  have hperm : List.Perm ((jsEntries (buildSessions xs)).map Prod.fst)
      ((buildSessions xs).map Prod.fst) :=
    (jsEntries_perm _).map Prod.fst
  refine hperm.nodup_iff.mpr ?_
  rw [buildSessions_keys]
  exact nodup_firstSeenKeys xs

/-! ### Claim C3: group order of the history list -/

/-- The concrete input from the claim: two messages of session "A", then
one of session "B". -/
def exampleFeed : List ChatRecord :=
  [{ sessionId := "A", role := Role.user, content := "hi", timestamp := "t1" },
   { sessionId := "A", role := Role.assistant, content := "hello", timestamp := "t2" },
   { sessionId := "B", role := Role.assistant, content := "x", timestamp := "t3" }]

/-- A feed whose session ids are canonical numeric strings, "2" before "1". -/
def numericKeyFeed : List ChatRecord :=
  [{ sessionId := "2", role := Role.user, content := "a", timestamp := "t1" },
   { sessionId := "1", role := Role.user, content := "b", timestamp := "t2" }]

/-- Counterexample to C3 as stated: for the input with session ids "2" then
"1", the first-appearance order is ["2", "1"], but the rendered groups come
out in ascending numeric key order ["1", "2"], because `Object.entries` of
a JS object enumerates array-index-like keys first in ascending numeric
order.  So the output group order does NOT follow first-appearance order
for every input sequence. -/
theorem grouping_not_first_appearance_order :
    firstSeenKeys numericKeyFeed = ["2", "1"] ∧
    (groupBySession numericKeyFeed).map (fun g => g.sessionId) = ["1", "2"] ∧
    (groupBySession numericKeyFeed).map (fun g => g.sessionId) ≠ firstSeenKeys numericKeyFeed :=
  ⟨by decide, by decide, by decide⟩

/-- C3 (amended): provided no sessionId is an array-index-like string (the
canonical decimal form of an integer below 2^32 - 1 — e.g. any UUID), the
history grouping partitions the messages by sessionId preserving each
group's internal input order, and the groups appear in first-appearance
order of each sessionId; without that proviso array-index-like ids are
hoisted to the front in ascending numeric order.  The concrete A/B example
of the claim holds as stated: groups A then B, preview "hi" and count 2
for A, preview "Chat session" and count 1 for B. -/
theorem grouping_first_appearance_order (xs : List ChatRecord)
    (h : ∀ m ∈ xs, isArrayIndex m.sessionId = false) :
    (groupBySession xs).map (fun g => g.sessionId) = firstSeenKeys xs ∧
    (∀ g ∈ groupBySession xs,
      g.msgs = xs.filter (fun m => m.sessionId == g.sessionId) ∧
      g.messageCount = (xs.filter (fun m => m.sessionId == g.sessionId)).length) ∧
    (groupBySession exampleFeed).map (fun g => (g.sessionId, g.preview, g.messageCount)) =
      [("A", "hi", 2), ("B", "Chat session", 1)] := by
  have hkeys : ∀ p ∈ buildSessions xs, isArrayIndex p.1 = false := by
    intro p hp
    have hp1 : p.1 ∈ firstSeenKeys xs := by
      rw [← buildSessions_keys xs]
      exact List.mem_map_of_mem Prod.fst hp
    rcases mem_firstSeenKeys.mp hp1 with ⟨m, hm, hms⟩
    rw [← hms]
    exact h m hm
  have hE : jsEntries (buildSessions xs) = buildSessions xs := by
    unfold jsEntries
    have h1 : (buildSessions xs).filter (fun p => isArrayIndex p.1) = [] :=
      List.filter_eq_nil_iff.mpr (fun p hp => by simp [hkeys p hp])
    have h2 : (buildSessions xs).filter (fun p => !isArrayIndex p.1) = buildSessions xs :=
      List.filter_eq_self.mpr (fun p hp => by simp [hkeys p hp])
    rw [h1, h2]
    rfl
  refine ⟨?_, ?_, by decide⟩
  · unfold groupBySession
    rw [hE, List.map_map, ← buildSessions_keys xs]
    rfl
  · intro g hg
    unfold groupBySession at hg
    rw [hE] at hg
    rcases List.mem_map.mp hg with ⟨p, hp, rfl⟩
    have hsnd := buildSessions_mem_snd hp
    exact ⟨hsnd, congrArg List.length hsnd⟩

/-- Witness for the amended C3 at the claim's concrete A/B input. -/
theorem grouping_first_appearance_order_witness :
    (∀ m ∈ exampleFeed, isArrayIndex m.sessionId = false) ∧
    ((groupBySession exampleFeed).map (fun g => g.sessionId) = firstSeenKeys exampleFeed ∧
     (∀ g ∈ groupBySession exampleFeed,
       g.msgs = exampleFeed.filter (fun m => m.sessionId == g.sessionId) ∧
       g.messageCount = (exampleFeed.filter (fun m => m.sessionId == g.sessionId)).length) ∧
     (groupBySession exampleFeed).map (fun g => (g.sessionId, g.preview, g.messageCount)) =
       [("A", "hi", 2), ("B", "Chat session", 1)]) :=
  ⟨by decide, grouping_first_appearance_order exampleFeed (by decide)⟩

/-! ### Regrouping a flattened grouping gives the same grouping -/

lemma fdStep_of_mem {acc : List String} {m : ChatRecord} (h : m.sessionId ∈ acc) :
    fdStep acc m = acc := by
  unfold fdStep
  exact if_pos h

lemma foldl_fdStep_const_mem (ms : List ChatRecord) (k : String) :
    ∀ acc, (∀ m ∈ ms, m.sessionId = k) → k ∈ acc → ms.foldl fdStep acc = acc := by
  induction ms with
  | nil => intro acc _ _; rfl
  | cons m ms ih =>
    intro acc hconst hk
    rw [List.foldl_cons, fdStep_of_mem (by rw [hconst m (List.mem_cons_self _ _)]; exact hk)]
    exact ih acc (fun m' hm' => hconst m' (List.mem_cons_of_mem _ hm')) hk

lemma foldl_fdStep_const_new (ms : List ChatRecord) (k : String) (m : ChatRecord)
    (acc : List String) (hm : m.sessionId = k) (hconst : ∀ m' ∈ ms, m'.sessionId = k)
    (hk : k ∉ acc) :
    (m :: ms).foldl fdStep acc = acc ++ [k] := by
  rw [List.foldl_cons]
  have h1 : fdStep acc m = acc ++ [k] := by
    unfold fdStep
    rw [hm]
    exact if_neg hk
  rw [h1]
  exact foldl_fdStep_const_mem ms k (acc ++ [k]) hconst (by simp)

lemma foldl_fdStep_flatten (l : List (String × List ChatRecord)) :
    ∀ acc : List String,
      (∀ p ∈ l, ∀ m ∈ p.2, m.sessionId = p.1) →
      (∀ p ∈ l, p.2 ≠ []) →
      (l.map Prod.fst).Nodup →
      (∀ k ∈ l.map Prod.fst, k ∉ acc) →
      ((l.map Prod.snd).flatten).foldl fdStep acc = acc ++ l.map Prod.fst := by
  induction l with
  | nil => intro acc _ _ _ _; simp
  | cons p l ih =>
    intro acc hconst hne hnd hdisj
    rw [List.map_cons, List.map_cons, List.flatten_cons, List.foldl_append]
    obtain ⟨m, ms, hms⟩ : ∃ m ms, p.2 = m :: ms := by
      cases hpe : p.2 with
      | nil => exact absurd hpe (hne p (List.mem_cons_self _ _))
      | cons a b => exact ⟨a, b, rfl⟩
    have hcp := hconst p (List.mem_cons_self _ _)
    rw [hms] at hcp
    have h1 : p.2.foldl fdStep acc = acc ++ [p.1] := by
      rw [hms]
      exact foldl_fdStep_const_new ms p.1 m acc
        (hcp m (List.mem_cons_self _ _))
        (fun m' hm' => hcp m' (List.mem_cons_of_mem _ hm'))
        (hdisj p.1 (List.mem_cons_self _ _))
    rw [h1]
    have hp1 := (List.nodup_cons.mp hnd).1
    have hnd' := (List.nodup_cons.mp hnd).2
    rw [ih (acc ++ [p.1])
      (fun q hq => hconst q (List.mem_cons_of_mem _ hq))
      (fun q hq => hne q (List.mem_cons_of_mem _ hq))
      hnd'
      (fun k hk hmem => by
        rcases List.mem_append.mp hmem with h | h
        · exact hdisj k (List.mem_cons_of_mem _ hk) h
        · have hkp : k = p.1 := by simpa using h
          exact hp1 (hkp ▸ hk))]
    rw [List.append_assoc]
    rfl

lemma firstSeenKeys_flatten (l : List (String × List ChatRecord))
    (hconst : ∀ p ∈ l, ∀ m ∈ p.2, m.sessionId = p.1)
    (hne : ∀ p ∈ l, p.2 ≠ [])
    (hnd : (l.map Prod.fst).Nodup) :
    firstSeenKeys ((l.map Prod.snd).flatten) = l.map Prod.fst := by
  have h := foldl_fdStep_flatten l [] hconst hne hnd (fun k _ hk => List.not_mem_nil k hk)
  simpa [firstSeenKeys] using h

lemma filter_key_flatten (l : List (String × List ChatRecord)) (xs : List ChatRecord)
    (k : String)
    (hv : ∀ p ∈ l, p.2 = xs.filter (fun m => m.sessionId == p.1))
    (hnd : (l.map Prod.fst).Nodup)
    (hk : k ∈ l.map Prod.fst) :
    ((l.map Prod.snd).flatten).filter (fun m => m.sessionId == k) =
      xs.filter (fun m => m.sessionId == k) := by
  induction l with
  | nil => simp at hk
  | cons p l ih =>
    rw [List.map_cons, List.flatten_cons, List.filter_append]
    by_cases hkp : k = p.1
    · subst hkp
      have h2 : p.2.filter (fun m => m.sessionId == p.1) =
          xs.filter (fun m => m.sessionId == p.1) := by
        rw [hv p (List.mem_cons_self _ _), List.filter_filter]
        apply List.filter_congr
        intro m _
        simp [Bool.and_self]
      have h3 : ((l.map Prod.snd).flatten).filter (fun m => m.sessionId == p.1) = [] := by
        refine List.filter_eq_nil_iff.mpr ?_
        intro m hm
        rcases List.mem_flatten.mp hm with ⟨b, hb, hmb⟩
        rcases List.mem_map.mp hb with ⟨q, hq, rfl⟩
        have hmf : m ∈ xs.filter (fun r => r.sessionId == q.1) := by
          rw [← hv q (List.mem_cons_of_mem _ hq)]
          exact hmb
        have hmq : m.sessionId = q.1 := by
          simpa using (List.mem_filter.mp hmf).2
        have hqk : q.1 ≠ p.1 := by
          have hp1 := (List.nodup_cons.mp hnd).1
          intro he
          exact hp1 (he ▸ List.mem_map_of_mem Prod.fst hq)
        simp [hmq, hqk]
      rw [h2, h3, List.append_nil]
    · have hkl : k ∈ l.map Prod.fst := by
        rw [List.map_cons] at hk
        rcases List.mem_cons.mp hk with h | h
        · exact absurd h hkp
        · exact h
      have h2 : p.2.filter (fun m => m.sessionId == k) = [] := by
        rw [hv p (List.mem_cons_self _ _), List.filter_filter]
        refine List.filter_eq_nil_iff.mpr ?_
        intro m _
        simp only [Bool.and_eq_true, beq_iff_eq]
        rintro ⟨ha, hb⟩
        exact hkp (ha ▸ hb)
      rw [h2, List.nil_append]
      exact ih (fun q hq => hv q (List.mem_cons_of_mem _ hq)) (List.nodup_cons.mp hnd).2 hkl

lemma entries_eq_map_keys (l : List (String × List ChatRecord))
    (f : String → List ChatRecord)
    (hv : ∀ p ∈ l, p.2 = f p.1) :
    l = (l.map Prod.fst).map (fun k => (k, f k)) := by
  induction l with
  | nil => rfl
  | cons p l ih =>
    rw [List.map_cons, List.map_cons]
    congr 1
    · have hp := hv p (List.mem_cons_self _ _)
      cases p with
      | mk a b => exact congrArg (fun x => (a, x)) hp
    · exact ih (fun q hq => hv q (List.mem_cons_of_mem _ hq))

lemma jsEntries_idem (l : List (String × List ChatRecord)) :
    jsEntries (jsEntries l) = jsEntries l := by
  unfold jsEntries
  set A := List.insertionSort entryLE (l.filter (fun p => isArrayIndex p.1)) with hA
  set B := l.filter (fun p => !isArrayIndex p.1) with hB
  have hAidx : ∀ p ∈ A, isArrayIndex p.1 = true := by
    intro p hp
    have hp' : p ∈ l.filter (fun q => isArrayIndex q.1) := by
      rw [hA] at hp
      simpa using hp
    exact (List.mem_filter.mp hp').2
  have hBidx : ∀ p ∈ B, isArrayIndex p.1 = false := by
    intro p hp
    have hp' : p ∈ l.filter (fun q => !isArrayIndex q.1) := by
      rw [hB] at hp
      exact hp
    have := (List.mem_filter.mp hp').2
    simpa using this
  have h1 : (A ++ B).filter (fun p => isArrayIndex p.1) = A := by
    rw [List.filter_append,
      List.filter_eq_self.mpr (fun p hp => by simp [hAidx p hp]),
      List.filter_eq_nil_iff.mpr (fun p hp => by simp [hBidx p hp]),
      List.append_nil]
  have h2 : (A ++ B).filter (fun p => !isArrayIndex p.1) = B := by
    rw [List.filter_append,
      List.filter_eq_nil_iff.mpr (fun p hp => by simp [hAidx p hp]),
      List.filter_eq_self.mpr (fun p hp => by simp [hBidx p hp]),
      List.nil_append]
  rw [h1, h2]
  congr 1
  refine List.Sorted.insertionSort_eq ?_
  rw [hA]
  exact List.sorted_insertionSort entryLE _

/-- C6: the history grouping is deterministic — the same input always
yields the same groups, order, previews and counts (it is a pure
function) — and idempotent: flattening its output groups back to a flat
message sequence (group order, each group's messages in order) and
regrouping yields exactly the same grouping. -/
theorem groupBySession_deterministic_idempotent (xs : List ChatRecord) :
    groupBySession xs = groupBySession xs ∧
    groupBySession (flattenGroups (groupBySession xs)) = groupBySession xs := by
  refine ⟨rfl, ?_⟩
  have hv : ∀ p ∈ jsEntries (buildSessions xs),
      p.2 = xs.filter (fun m => m.sessionId == p.1) :=
    fun p hp => buildSessions_mem_snd (mem_jsEntries.mp hp)
  have hconst : ∀ p ∈ jsEntries (buildSessions xs), ∀ m ∈ p.2, m.sessionId = p.1 := by
    intro p hp m hm
    rw [hv p hp] at hm
    simpa using (List.mem_filter.mp hm).2
  have hne : ∀ p ∈ jsEntries (buildSessions xs), p.2 ≠ [] := by
    intro p hp
    have hp1 : p.1 ∈ firstSeenKeys xs := by
      rw [← buildSessions_keys xs]
      exact List.mem_map_of_mem Prod.fst (mem_jsEntries.mp hp)
    rcases mem_firstSeenKeys.mp hp1 with ⟨m, hm, hms⟩
    rw [hv p hp]
    intro hnil
    have hmem : m ∈ xs.filter (fun r => r.sessionId == p.1) :=
      List.mem_filter.mpr ⟨hm, by simp [hms]⟩
    rw [hnil] at hmem
    exact List.not_mem_nil m hmem
  have hnd := jsEntries_keys_nodup xs
  have hflat : flattenGroups (groupBySession xs) =
      ((jsEntries (buildSessions xs)).map Prod.snd).flatten := by
    unfold flattenGroups groupBySession
    rw [List.map_map]
    rfl
  have hkeys : firstSeenKeys (((jsEntries (buildSessions xs)).map Prod.snd).flatten) =
      (jsEntries (buildSessions xs)).map Prod.fst :=
    firstSeenKeys_flatten _ hconst hne hnd
  have hbuild : buildSessions (((jsEntries (buildSessions xs)).map Prod.snd).flatten) =
      jsEntries (buildSessions xs) := by
    rw [buildSessions_eq, hkeys]
    conv_rhs => rw [entries_eq_map_keys (jsEntries (buildSessions xs))
      (fun k => xs.filter (fun m => m.sessionId == k)) hv]
    apply List.map_congr_left
    intro k hk
    exact congrArg (fun b => (k, b)) (filter_key_flatten _ xs k hv hnd hk)
  calc groupBySession (flattenGroups (groupBySession xs))
      = (jsEntries (buildSessions
          (((jsEntries (buildSessions xs)).map Prod.snd).flatten))).map mkGroup := by
        rw [hflat]
        rfl
    _ = (jsEntries (jsEntries (buildSessions xs))).map mkGroup := by rw [hbuild]
    _ = (jsEntries (buildSessions xs)).map mkGroup := by rw [jsEntries_idem]
    _ = groupBySession xs := rfl
